import Mathlib

/-!
Verification of the teide Python bindings and the mirador pipeline executor.

The definitions below are a shallow embedding of the Python source:
 - `src/bindings/python/teide/__init__.py` (ctypes wrapper `TeideLib`),
 - `src/bindings/python/teide/api.py` (`Expr`, `Query`, `Table`, `Context`),
 - `src/bindings/python/teide_adapter.py` (`TeideAdapter`),
 - `src/mirador/mirador/engine/executor.py` (`PipelineExecutor.run`).

Calls into the C library `libteide` (whose source is not part of this
repository) are embedded as graph-node constructors, or are modelled from
the specification where a claim depends on their behaviour; each such
definition says so in its doc comment.
-/

namespace Teide

/-- Python exception model: the exception classes that the embedded code can
raise, with their message where a claim depends on it. -/
inductive PyErr where
  | typeError (msg : String)
  | runtimeError (msg : String)
  | valueError (msg : String)
  | notImplementedError
  | keyError (msg : String)
  | attributeError (msg : String)
  deriving DecidableEq, Repr

/-- Python value carried by a `lit(...)` expression (api.py `_emit_expr`
dispatches on `isinstance`: float, then bool, then int; anything else is a
`TypeError`). -/
inductive PyVal where
  | float (bits : Int)
  | bool (b : Bool)
  | int (v : Int)
  | other
  deriving DecidableEq, Repr

/-- Model of the `Expr` tree from api.py: kinds "col", "lit", "binop", "unop", "agg",
"alias"; `kw` payloads are made explicit per kind. -/
inductive Expr where
  | col (name : String)
  | lit (v : PyVal)
  | binop (op : String) (left right : Expr)
  | unop (op : String) (arg : Expr)
  | agg (op : Nat) (arg : Expr)
  | aliasE (name : String) (arg : Expr)
  deriving DecidableEq, Repr

/-- Graph-node handle returned by the `td_*` node constructors of libteide.
The C constructors only record the node; the shape of the recorded node is
what the binding-level claims are about, so a node is embedded as its
constructor tree. -/
inductive GNode where
  | scan (name : String)
  | constF64 (bits : Int)
  | constI64 (v : Int)
  | constBool (b : Bool)
  | constVec (ptr : Nat)
  | constTable (ptr : Nat)
  | binop (op : String) (l r : GNode)
  | unop (op : String) (a : GNode)
  | agg (op : Nat) (a : GNode)
  | filter (input pred : GNode)
  | group (keys : List GNode) (aggOps : List Nat) (aggIns : List GNode)
  | headOp (input : GNode) (n : Int)

/-- Binary operator names accepted by `_emit_expr`'s `binop_map`
(api.py lines 649-663). -/
def binopMap : List String :=
  ["add", "sub", "mul", "div", "mod", "eq", "ne", "lt", "le", "gt", "ge",
   "and", "or"]

/-- Unary operator names accepted by `_emit_expr`'s `unop_map`
(api.py lines 673-677). -/
def unopMap : List String := ["neg", "abs", "not"]

/-- Aggregation opcodes accepted by `_emit_expr`'s `agg_map`
(api.py lines 688-696; constants from `teide/__init__.py`). -/
def aggMap : List Nat := [50, 55, 52, 53, 54, 56, 57]

/-- api.py `_emit_expr`: recursively emit graph nodes for an `Expr` tree. -/
def emitExpr : Expr → Except PyErr GNode
  | .col name => .ok (.scan name)
  | .lit v =>
      match v with
      | .float bits => .ok (.constF64 bits)
      | .bool b => .ok (.constBool b)
      | .int n => .ok (.constI64 n)
      | .other => .error (.typeError "Unsupported literal type")
  | .binop op l r => do
      let ln ← emitExpr l
      let rn ← emitExpr r
      if op ∈ binopMap then .ok (.binop op ln rn)
      else .error (.valueError ("Unknown binary op: " ++ op))
  | .unop op a => do
      let an ← emitExpr a
      if op ∈ unopMap then .ok (.unop op an)
      else .error (.valueError ("Unknown unary op: " ++ op))
  | .agg op a => do
      let an ← emitExpr a
      if op ∈ aggMap then .ok (.agg op an)
      else .error (.valueError ("Unknown agg opcode"))
  | .aliasE _ a => emitExpr a

/-- One recorded lazy operation of a `Query` (`Query._ops`). -/
inductive QOp where
  | filterOp (e : Expr)
  | groupOp (keys : List String) (aggs : List Expr)
  | sortOp (cols : List String) (descs : List Bool)
  | headQ (n : Int)
  | selectOp (exprs : List Expr)

/-- ctypes argtypes declared for `td_sort_op` in `TeideLib._setup_signatures`
(`__init__.py` lines 243-248): graph, table node, keys array, descending
flags array, nulls-first flags array, column count — six parameters. -/
def tdSortOpArgtypes : List String :=
  ["graph_p", "op_p", "op_p_ptr", "u8_ptr", "u8_ptr", "u8"]

/-- Number of arguments passed to `td_sort_op` at the call site in
`Query._execute_ops` (api.py line 605): graph, table node, keys array,
descending flags array, column count — five arguments. -/
def sortCallArgCount : Nat := 5

/-- ctypes foreign-call arity check: calling a foreign function whose
`argtypes` has been set with fewer positional arguments than declared raises
`TypeError: this function takes at least N arguments (M given)`. -/
def ctypesArity (argtypes : List String) (nargs : Nat) : Except PyErr Unit :=
  if nargs < argtypes.length then
    .error (.typeError ("this function takes at least " ++
      toString argtypes.length ++ " arguments (" ++ toString nargs ++ " given)"))
  else .ok ()

/-- Pipeline state threaded through `Query._execute_ops`: `current` is the
node produced so far, `filter_pred` the pending table-level predicate. -/
structure OpState where
  current : Option GNode
  filterPred : Option GNode

/-- Decompose one aggregate expression in the group branch of
`_execute_ops` (api.py lines 564-572): require kind "agg", emit the inner
expression, wrap it in `td_filter` when a predicate is pending. -/
def emitAgg (filterPred : Option GNode) : Expr → Except PyErr (Nat × GNode)
  | .agg op inner => do
      let node ← emitExpr inner
      match filterPred with
      | some p => .ok (op, .filter node p)
      | none => .ok (op, node)
  | _ => .error (.valueError "group_by.agg() requires aggregation expressions")

/-- Wrap a scan of a key column with the pending predicate, as the group and
sort branches of `_execute_ops` do for each key column name. -/
def keyNode (filterPred : Option GNode) (name : String) : GNode :=
  match filterPred with
  | some p => .filter (.scan name) p
  | none => .scan name

/-- One step of `Query._execute_ops` (api.py lines 538-617): process a single
recorded operation against the pipeline state.  `tbl` is the bound table
pointer (`self._ptr`).  The sort branch reproduces the call
`td_sort_op(g, table_node, keys_arr, descs_arr, n_cols)` — five arguments
against six declared argtypes — so it raises the ctypes arity `TypeError`. -/
def execOp (tbl : Nat) (st : OpState) : QOp → Except PyErr OpState
  | .filterOp e => do
      let predNode ← emitExpr e
      match st.current with
      | none => .ok ⟨none, some predNode⟩
      | some cur => .ok ⟨some (.filter cur predNode), st.filterPred⟩
  | .groupOp keyColNames aggExprs => do
      let keyNodes := keyColNames.map (keyNode st.filterPred)
      let pairs ← aggExprs.mapM (emitAgg st.filterPred)
      .ok ⟨some (.group keyNodes (pairs.map Prod.fst) (pairs.map Prod.snd)),
           none⟩
  | .sortOp colNames descs => do
      let _tableNode := match st.current with
        | some cur => cur
        | none => GNode.constTable tbl
      let _keyNodes := colNames.map (keyNode st.filterPred)
      let _descs := descs
      ctypesArity tdSortOpArgtypes sortCallArgCount
      .error (.runtimeError "unreachable: td_sort_op call never succeeds")
  | .headQ n =>
      match st.current with
      | none => .ok ⟨some (.headOp (.constTable tbl) n), st.filterPred⟩
      | some cur => .ok ⟨some (.headOp cur n), st.filterPred⟩
  | .selectOp _ => .error .notImplementedError

/-- Model of `Query._execute_ops`: fold the recorded operations over the initial
state; with no ops (or no node-producing op) the bound table is returned. -/
def execOps (tbl : Nat) (ops : List QOp) : Except PyErr GNode := do
  let st ← ops.foldlM (execOp tbl) ⟨none, none⟩
  match st.current with
  | none => .ok (.constTable tbl)
  | some cur => .ok cur

/-- Outcome of a `collect`-style call: the Python-level result (exception or
table pointer wrapped in a `Table`) plus whether `td_graph_free` ran. -/
structure CollectOutcome where
  result : Except PyErr Nat
  graphFreed : Bool
  deriving Repr

/-- Model of `Query.collect` (api.py lines 513-525): build the graph, execute, wrap
the result pointer, free the graph in a `finally` block.  `execRes` is the
value returned by `td_execute` (`none` embeds a NULL pointer). -/
def collect (tbl : Nat) (ops : List QOp) (execRes : Option Nat) :
    CollectOutcome :=
  match execOps tbl ops with
  | .error e => ⟨.error e, true⟩
  | .ok _ =>
      match execRes with
      | none => ⟨.error (.runtimeError "Execution failed (error code None)"), true⟩
      | some p =>
          if p < 32 then
            ⟨.error (.runtimeError ("Execution failed (error code " ++
              toString p ++ ")")), true⟩
          else ⟨.ok p, true⟩

/-- Model of `Query.sort` / `Table.sort` (api.py lines 497-503): a single bool for
`descending` is expanded to one flag per key column. -/
def sortDescs (nkeys : Nat) : Bool ⊕ List Bool → List Bool
  | .inl b => List.replicate nkeys b
  | .inr l => l

/-- Model of `Table.sort(*keys, descending=...).collect()`: record one sort op and
collect. -/
def tableSortCollect (tbl : Nat) (cols : List String)
    (descending : Bool ⊕ List Bool) (execRes : Option Nat) : CollectOutcome :=
  collect tbl [.sortOp cols (sortDescs cols.length descending)] execRes

/-- Model of `Table.join` and its `how` argument (api.py line 348): the join type is
looked up in `{"inner": 0, "left": 1}` with `.get(how, 0)`, defaulting to
inner for any other string; no exception path exists. -/
def joinTypeOf (how : String) : Nat :=
  if how = "inner" then 0 else if how = "left" then 1 else 0

/-- Sequence the per-key column lookups of `Table.join`: the loop
`[right[k]._ptr for k in on]` succeeds only if every lookup does. -/
def lookupAll : List (Option Nat) → Option (List Nat)
  | [] => some []
  | none :: _ => none
  | some v :: rest => (lookupAll rest).map (v :: ·)

/-- Model of `Table.join` (api.py lines 336-363): resolve the join type, look up each
right-side key column (a missing column raises `KeyError` from
`Table.__getitem__`), build and execute the join graph, check the result
pointer, free the graph in a `finally` block.  `onLookups` holds the result
of `right[k]` for each key (`none` embeds a missing column), `execRes` the
`td_execute` return value. -/
def joinRun (how : String) (onLookups : List (Option Nat))
    (execRes : Option Nat) : CollectOutcome :=
  let _jt := joinTypeOf how
  match lookupAll onLookups with
  | none => ⟨.error (.keyError "Column not found"), true⟩
  | some _ =>
      match execRes with
      | none => ⟨.error (.runtimeError "Join failed (error code None)"), true⟩
      | some p =>
          if p < 32 then
            ⟨.error (.runtimeError ("Join failed (error code " ++
              toString p ++ ")")), true⟩
          else ⟨.ok p, true⟩

/-- C1: the spec's sort contract says `Table.sort(*keys, descending=...)
.collect()` returns a permutation of the rows ordered by the keys.  The code
cannot: `Query._execute_ops` calls `td_sort_op` with five arguments
(api.py line 605) while `TeideLib._setup_signatures` declares six argtypes
for it (`__init__.py` lines 243-248, including a nulls-first array), so
ctypes raises `TypeError` on every sort, for every table, key list,
descending flag shape, and execution result. -/
theorem sort_collect_always_raises_typeerror (tbl : Nat) (cols : List String)
    (descending : Bool ⊕ List Bool) (execRes : Option Nat) :
    (tableSortCollect tbl cols descending execRes).result =
      .error (.typeError "this function takes at least 6 arguments (5 given)")
    ∧ (tableSortCollect tbl cols descending execRes).graphFreed = true := by
  constructor <;> rfl

/-- Shape of a successful aggregate decomposition under a pending predicate:
the emitted input node is always wrapped in `td_filter(·, p)`. -/
theorem emitAgg_some_shape {p : GNode} {a : Expr} {q : Nat × GNode}
    (h : emitAgg (some p) a = .ok q) : ∃ inner, q.2 = .filter inner p := by
  cases a with
  | agg op arg =>
      simp only [emitAgg] at h
      cases he : emitExpr arg with
      | error err =>
          rw [he] at h
          exact absurd h (by simp [Bind.bind, Except.bind])
      | ok node =>
          rw [he] at h
          simp only [Bind.bind, Except.bind, Except.ok.injEq] at h
          exact ⟨node, by rw [← h]⟩
  | col name => simp [emitAgg] at h
  | lit v => simp [emitAgg] at h
  | binop op l r => simp [emitAgg] at h
  | unop op arg => simp [emitAgg] at h
  | aliasE name arg => simp [emitAgg] at h

/-- Every pair produced by mapping `emitAgg` under a pending predicate has a
filter-wrapped input node. -/
theorem mapM_emitAgg_shape {p : GNode} :
    ∀ {aggs : List Expr} {pairs : List (Nat × GNode)},
      aggs.mapM (emitAgg (some p)) = .ok pairs →
      ∀ q ∈ pairs, ∃ inner, q.2 = .filter inner p := by
  intro aggs
  induction aggs with
  | nil =>
      intro pairs h q hq
      simp only [List.mapM_nil, pure, Except.pure, Except.ok.injEq] at h
      subst h
      simp at hq
  | cons a rest ih =>
      intro pairs h q hq
      simp only [List.mapM_cons] at h
      cases ha : emitAgg (some p) a with
      | error err => rw [ha] at h; simp [Bind.bind, Except.bind] at h
      | ok q0 =>
          rw [ha] at h
          cases hr : rest.mapM (emitAgg (some p)) with
          | error err =>
              rw [hr] at h
              simp [Bind.bind, Except.bind] at h
          | ok qs =>
              rw [hr] at h
              simp only [Bind.bind, Except.bind, pure, Except.pure,
                Except.ok.injEq] at h
              subst h
              rcases List.mem_cons.mp hq with hq0 | hqs
              · subst hq0; exact emitAgg_some_shape ha
              · exact ih hr q hqs

/-- C2: a table-level `filter` followed by `group_by(...).agg(...)` pushes
the predicate node into the group: every group-key scan node and every
aggregate-input node is individually wrapped in `td_filter(·, pred)` (no
separately materialized filtered table), the pending predicate is consumed
by the group, and the remaining operations of the query are processed from a
state with no pending predicate. -/
theorem filter_pushdown_into_group (tbl : Nat) (e : Expr) (ks : List String)
    (aggs : List Expr) (rest : List QOp) (p : GNode)
    (hp : emitExpr e = .ok p) :
    execOp tbl ⟨none, none⟩ (.filterOp e) = .ok ⟨none, some p⟩
    ∧ (∀ st', execOp tbl ⟨none, some p⟩ (.groupOp ks aggs) = .ok st' →
        st'.filterPred = none
        ∧ ∃ pairs, aggs.mapM (emitAgg (some p)) = .ok pairs
          ∧ st'.current = some (.group
              (ks.map fun k => .filter (.scan k) p)
              (pairs.map Prod.fst) (pairs.map Prod.snd))
          ∧ ∀ q ∈ pairs, ∃ inner, q.2 = .filter inner p)
    ∧ (∀ st', execOp tbl ⟨none, some p⟩ (.groupOp ks aggs) = .ok st' →
        (QOp.filterOp e :: QOp.groupOp ks aggs :: rest).foldlM
            (execOp tbl) ⟨none, none⟩
          = rest.foldlM (execOp tbl) st') := by
  have hfilter : execOp tbl ⟨none, none⟩ (.filterOp e) = .ok ⟨none, some p⟩ := by
    simp [execOp, hp, Bind.bind, Except.bind]
  refine ⟨hfilter, ?_, ?_⟩
  · intro st' hst
    cases hmap : aggs.mapM (emitAgg (some p)) with
    | error err =>
        rw [execOp, hmap] at hst
        simp [Bind.bind, Except.bind] at hst
    | ok pairs =>
        rw [execOp, hmap] at hst
        simp only [Bind.bind, Except.bind, Except.ok.injEq] at hst
        subst hst
        exact ⟨rfl, pairs, rfl, rfl, fun q hq => mapM_emitAgg_shape hmap q hq⟩
  · intro st' hst
    simp [List.foldlM_cons, hfilter, hst, Bind.bind, Except.bind]

/-- Witness for C2 at the query `filter(col "flag").group_by("id1").agg()`:
the filter step stores the predicate, and the two-op fold continues from the
state holding the consumed-predicate group node with filter-wrapped key. -/
theorem filter_pushdown_into_group_witness :
    execOp 0 ⟨none, none⟩ (.filterOp (.col "flag")) =
      .ok ⟨none, some (.scan "flag")⟩
    ∧ ([QOp.filterOp (.col "flag"), QOp.groupOp ["id1"] []].foldlM
        (execOp 0) ⟨none, none⟩
      = ([] : List QOp).foldlM (execOp 0)
          ⟨some (.group [.filter (.scan "id1") (.scan "flag")] [] []),
           none⟩) :=
  have h := filter_pushdown_into_group 0 (.col "flag") ["id1"] [] []
    (.scan "flag") rfl
  ⟨h.1, h.2.2 ⟨some (.group [.filter (.scan "id1") (.scan "flag")] [] []),
      none⟩ rfl⟩

/-- Sequencing an all-`some` lookup list succeeds with the carried values
(the successful right-column-lookup case of `Table.join`). -/
theorem lookupAll_map_some (l : List Nat) : lookupAll (l.map some) = some l := by
  induction l with
  | nil => rfl
  | cons a t ih => simp [lookupAll, ih]

/-- C3 counterexample: for the query whose single recorded operation is a
`select`, `collect` raises `NotImplementedError` — it neither raises
`RuntimeError` nor returns a `Table`, even though `td_execute` would have
produced the valid pointer 100, so the claimed dichotomy over every `Query`
is false. -/
theorem collect_select_neither_runtime_nor_table :
    (collect 0 [.selectOp []] (some 100)).result =
      .error .notImplementedError := rfl

/-- C3 (amended): for every `Query` whose graph emission succeeds,
`Query.collect` raises `RuntimeError` iff `td_execute` returned NULL or a
value below 32, and otherwise returns a `Table` wrapping exactly the
returned pointer; `Table.join` behaves the same way when its right-side key
column lookups succeed; and the graph is freed (`td_graph_free` runs) on
every path of both, including when graph emission itself raises. -/
theorem collect_and_join_error_handling
    (tbl : Nat) (ops : List QOp) (execRes : Option Nat)
    (root : GNode) (hok : execOps tbl ops = .ok root)
    (how : String) (ptrs : List Nat) (jexecRes : Option Nat) :
    ((∃ msg, (collect tbl ops execRes).result = .error (.runtimeError msg)) ↔
        (execRes = none ∨ ∃ p, execRes = some p ∧ p < 32))
    ∧ (∀ p, execRes = some p → 32 ≤ p →
        (collect tbl ops execRes).result = .ok p)
    ∧ ((∃ msg, (joinRun how (ptrs.map some) jexecRes).result =
          .error (.runtimeError msg)) ↔
        (jexecRes = none ∨ ∃ p, jexecRes = some p ∧ p < 32))
    ∧ (∀ p, jexecRes = some p → 32 ≤ p →
        (joinRun how (ptrs.map some) jexecRes).result = .ok p)
    ∧ (∀ (ops' : List QOp) (execRes' : Option Nat),
        (collect tbl ops' execRes').graphFreed = true)
    ∧ (∀ (how' : String) (lookups : List (Option Nat))
          (jexecRes' : Option Nat),
        (joinRun how' lookups jexecRes').graphFreed = true) := by
  refine ⟨?_, ?_, ?_, ?_, ?_, ?_⟩
  · cases execRes with
    | none => simp [collect, hok]
    | some p =>
        by_cases hp : p < 32
        · simp [collect, hok, hp]
        · simp [collect, hok, hp, if_neg hp]
  · intro p hp h32
    subst hp
    simp [collect, hok, Nat.not_lt.mpr h32]
  · cases jexecRes with
    | none => simp [joinRun, lookupAll_map_some]
    | some p =>
        by_cases hp : p < 32
        · simp [joinRun, lookupAll_map_some, hp]
        · simp [joinRun, lookupAll_map_some, hp]
  · intro p hp h32
    subst hp
    simp [joinRun, lookupAll_map_some, Nat.not_lt.mpr h32]
  · intro ops' execRes'
    cases hex : execOps tbl ops' with
    | error e => simp [collect, hex]
    | ok r =>
        cases execRes' with
        | none => simp [collect, hex]
        | some p =>
            by_cases hp : p < 32 <;> simp [collect, hex, hp]
  · intro how' lookups jexecRes'
    cases hml : lookupAll lookups with
    | none => simp [joinRun, hml]
    | some vs =>
        cases jexecRes' with
        | none => simp [joinRun, hml]
        | some p =>
            by_cases hp : p < 32 <;> simp [joinRun, hml, hp]

/-- Witness for the amended C3 at a concrete query (no recorded ops, bound
table pointer 7, `td_execute` returning the valid pointer 100) and a
concrete join (inner, one key column found at pointer 40). -/
theorem collect_and_join_error_handling_witness :
    (collect 7 [] (some 100)).result = .ok 100
    ∧ (joinRun "inner" ([40].map some) (some 100)).result = .ok 100
    ∧ (collect 7 [] (some 100)).graphFreed = true
    ∧ (joinRun "inner" [some 40] (some 100)).graphFreed = true :=
  have h := collect_and_join_error_handling 7 [] (some 100) (.constTable 7)
    rfl "inner" [40] (some 100)
  ⟨h.2.1 100 rfl (by decide), h.2.2.2.1 100 rfl (by decide),
   h.2.2.2.2.1 [] (some 100), h.2.2.2.2.2 "inner" [some 40] (some 100)⟩

/-- A materialized table as the binding observes it: the ordered list of
(column name, element list) pairs.  Cell values are modelled by their 64-bit
contents. -/
structure PyTable where
  cols : List (String × List Int)
  deriving DecidableEq, Repr

/-- Model of `td_table_ncols`. -/
def table_ncols (t : PyTable) : Nat := t.cols.length

/-- Model of `td_table_nrows`: the table row count (all columns share one length by
the table invariant; the first column's length is reported). -/
def table_nrows (t : PyTable) : Nat :=
  match t.cols with
  | [] => 0
  | c :: _ => c.2.length

/-- Modelled from the spec: `td_vec_slice(v, offset, n)` produces the
zero-copy slice view of `v` covering `[offset, offset + n)`; only the
element contents of the view are modelled, not the sharing. -/
def td_vec_slice (v : List Int) (offset n : Int) : List Int :=
  (v.drop offset.toNat).take n.toNat

/-- Result of `Table.head`: either the very same `Table` object (`return
self`, no copy) or a freshly assembled table. -/
inductive HeadResult where
  | same
  | fresh (t : PyTable)
  deriving DecidableEq, Repr

/-- Model of `Table.head` (api.py lines 295-308): if `n >= nrows` return `self`;
otherwise build a new table whose columns are the `[0, n)` slices of the
source columns, added under the same name ids in index order. -/
def tableHead (t : PyTable) (n : Int) : HeadResult :=
  if (table_nrows t : Int) ≤ n then .same
  else .fresh ⟨t.cols.map fun c => (c.1, td_vec_slice c.2 0 n)⟩

/-- C5: `Table.head(n)` returns the identical table object when `n` is at
least the row count; otherwise it returns a fresh table — with the same
column count, the same column names in the same order, whose i-th column is
the `[0, n)` slice (via `td_vec_slice`) of the source's i-th column. -/
theorem head_same_or_prefix_slices (t : PyTable) (n : Int) :
    ((table_nrows t : Int) ≤ n → tableHead t n = .same)
    ∧ (n < (table_nrows t : Int) → ∃ t', tableHead t n = .fresh t')
    ∧ (∀ t', tableHead t n = .fresh t' →
        table_ncols t' = table_ncols t
        ∧ t'.cols.map Prod.fst = t.cols.map Prod.fst)
    ∧ (∀ t' (i : Nat) (c : String × List Int), tableHead t n = .fresh t' →
        t.cols[i]? = some c →
        t'.cols[i]? = some (c.1, td_vec_slice c.2 0 n)) := by
  by_cases hn : (table_nrows t : Int) ≤ n
  · refine ⟨fun _ => by simp [tableHead, hn], fun h => absurd hn (not_le.mpr h),
      ?_, ?_⟩
    · intro t' ht
      rw [tableHead, if_pos hn] at ht
      exact absurd ht (by simp)
    · intro t' i c ht
      rw [tableHead, if_pos hn] at ht
      exact absurd ht (by simp)
  · have hfr : tableHead t n =
        .fresh ⟨t.cols.map fun c => (c.1, td_vec_slice c.2 0 n)⟩ := by
      rw [tableHead, if_neg hn]
    refine ⟨fun h => absurd h hn, fun _ => ⟨_, hfr⟩, ?_, ?_⟩
    · intro t' ht
      rw [hfr] at ht
      cases ht
      constructor
      · simp [table_ncols]
      · simp [Function.comp]
    · intro t' i c ht hc
      rw [hfr] at ht
      cases ht
      simp [List.getElem?_map, hc]

/-- Witness for C5 on the two-column table {"a": [1,2,3], "b": [4,5,6]}:
`head(5)` returns the same object; `head(2)` returns the fresh table whose
columns keep their names and are the 2-element prefix slices. -/
theorem head_same_or_prefix_slices_witness :
    tableHead ⟨[("a", [1, 2, 3]), ("b", [4, 5, 6])]⟩ 5 = .same
    ∧ (table_ncols ⟨[("a", [1, 2]), ("b", [4, 5])]⟩ =
        table_ncols ⟨[("a", [1, 2, 3]), ("b", [4, 5, 6])]⟩
      ∧ (PyTable.mk [("a", [1, 2]), ("b", [4, 5])]).cols.map Prod.fst =
        (PyTable.mk [("a", [1, 2, 3]), ("b", [4, 5, 6])]).cols.map Prod.fst)
    ∧ (PyTable.mk [("a", [1, 2]), ("b", [4, 5])]).cols[0]? =
        some ("a", td_vec_slice [1, 2, 3] 0 2) :=
  ⟨(head_same_or_prefix_slices ⟨[("a", [1, 2, 3]), ("b", [4, 5, 6])]⟩ 5).1
      (by decide),
   (head_same_or_prefix_slices ⟨[("a", [1, 2, 3]), ("b", [4, 5, 6])]⟩ 2).2.2.1
      ⟨[("a", [1, 2]), ("b", [4, 5])]⟩ (by decide),
   (head_same_or_prefix_slices ⟨[("a", [1, 2, 3]), ("b", [4, 5, 6])]⟩ 2).2.2.2
      ⟨[("a", [1, 2]), ("b", [4, 5])]⟩ 0 ("a", [1, 2, 3]) (by decide)
      (by decide)⟩

/-- One lifecycle call into libteide, as issued by `Context.close`. -/
inductive LifecycleEvent where
  | poolDestroy
  | symDestroy
  | arenaDestroyAll
  deriving DecidableEq, Repr

/-- Model of `Context.close` (api.py lines 723-726): the straight-line sequence of C
lifecycle calls it issues, in program order. -/
def contextCloseTrace : List LifecycleEvent :=
  [.poolDestroy, .symDestroy, .arenaDestroyAll]

/-- C6: on every execution of `Context.close`, `td_pool_destroy` runs
strictly before `td_sym_destroy`, `td_arena_destroy_all` runs last, each
exactly once; in particular the arena is never destroyed before the pool has
been destroyed within the call. -/
theorem context_close_ordering :
    contextCloseTrace.indexOf .poolDestroy <
        contextCloseTrace.indexOf .symDestroy
    ∧ contextCloseTrace.indexOf .symDestroy <
        contextCloseTrace.indexOf .arenaDestroyAll
    ∧ contextCloseTrace.getLast? = some .arenaDestroyAll
    ∧ contextCloseTrace.count .poolDestroy = 1
    ∧ contextCloseTrace.count .symDestroy = 1
    ∧ contextCloseTrace.count .arenaDestroyAll = 1 := by
  decide

/-- Model of `Context.read_csv` (api.py lines 728-733): `res` is the `td_csv_read`
return value (`none` embeds NULL). -/
def readCsv (path : String) (res : Option Nat) : Except PyErr Nat :=
  match res with
  | none => .error (.runtimeError ("Failed to read CSV: " ++ path))
  | some p =>
      if p < 32 then .error (.runtimeError ("Failed to read CSV: " ++ path))
      else .ok p

/-- Model of `Context.splay_save` (api.py lines 735-739): raise iff `td_splay_save`
returned a nonzero status. -/
def splaySave (err : Int) : Except PyErr Unit :=
  if err ≠ 0 then
    .error (.runtimeError ("splay_save failed (error code " ++
      toString err ++ ")"))
  else .ok ()

/-- Model of `Context.splay_load` (api.py lines 741-746). -/
def splayLoad (path : String) (res : Option Nat) : Except PyErr Nat :=
  match res with
  | none => .error (.runtimeError ("Failed to load splayed table: " ++ path))
  | some p =>
      if p < 32 then
        .error (.runtimeError ("Failed to load splayed table: " ++ path))
      else .ok p

/-- Model of `Context.part_load` (api.py lines 748-753). -/
def partLoad (dbRoot tableName : String) (res : Option Nat) :
    Except PyErr Nat :=
  match res with
  | none => .error (.runtimeError ("Failed to load partitioned table: " ++
      (dbRoot ++ "/" ++ tableName)))
  | some p =>
      if p < 32 then
        .error (.runtimeError ("Failed to load partitioned table: " ++
          (dbRoot ++ "/" ++ tableName)))
      else .ok p

/-- C7: each storage entry point reports failure per call.  `read_csv`,
`splay_load` and `part_load` raise `RuntimeError` with the offending path in
the message exactly when the C call returned NULL or a value below 32, and
return the wrapped table otherwise; `splay_save` raises exactly when
`td_splay_save` returned a nonzero status. -/
theorem storage_error_reporting :
    (∀ path res,
      ((∃ msg, readCsv path res = .error (.runtimeError msg)
          ∧ ∃ pre post, msg = pre ++ path ++ post) ↔
        (res = none ∨ ∃ p, res = some p ∧ p < 32))
      ∧ ∀ p, res = some p → 32 ≤ p → readCsv path res = .ok p)
    ∧ (∀ path res,
      ((∃ msg, splayLoad path res = .error (.runtimeError msg)
          ∧ ∃ pre post, msg = pre ++ path ++ post) ↔
        (res = none ∨ ∃ p, res = some p ∧ p < 32))
      ∧ ∀ p, res = some p → 32 ≤ p → splayLoad path res = .ok p)
    ∧ (∀ dbRoot tableName res,
      ((∃ msg, partLoad dbRoot tableName res = .error (.runtimeError msg)
          ∧ ∃ pre post, msg = pre ++ (dbRoot ++ "/" ++ tableName) ++ post) ↔
        (res = none ∨ ∃ p, res = some p ∧ p < 32))
      ∧ ∀ p, res = some p → 32 ≤ p → partLoad dbRoot tableName res = .ok p)
    ∧ (∀ err, splaySave err = .ok () ↔ err = 0) := by
  refine ⟨?_, ?_, ?_, ?_⟩
  · intro path res
    constructor
    · cases res with
      | none =>
          simp only [readCsv]
          constructor
          · intro _; simp
          · intro _
            exact ⟨_, rfl, "Failed to read CSV: ", "", by simp⟩
      | some p =>
          by_cases hp : p < 32
          · simp only [readCsv, if_pos hp]
            constructor
            · intro _; exact Or.inr ⟨p, rfl, hp⟩
            · intro _
              exact ⟨_, rfl, "Failed to read CSV: ", "", by simp⟩
          · simp only [readCsv, if_neg hp]
            constructor
            · rintro ⟨msg, hmsg, -⟩; exact absurd hmsg (by simp)
            · rintro (h | ⟨q, hq, hq32⟩)
              · exact absurd h (by simp)
              · cases hq; exact absurd hq32 hp
    · intro p hp h32
      subst hp
      simp [readCsv, Nat.not_lt.mpr h32]
  · intro path res
    constructor
    · cases res with
      | none =>
          simp only [splayLoad]
          constructor
          · intro _; simp
          · intro _
            exact ⟨_, rfl, "Failed to load splayed table: ", "", by simp⟩
      | some p =>
          by_cases hp : p < 32
          · simp only [splayLoad, if_pos hp]
            constructor
            · intro _; exact Or.inr ⟨p, rfl, hp⟩
            · intro _
              exact ⟨_, rfl, "Failed to load splayed table: ", "", by simp⟩
          · simp only [splayLoad, if_neg hp]
            constructor
            · rintro ⟨msg, hmsg, -⟩; exact absurd hmsg (by simp)
            · rintro (h | ⟨q, hq, hq32⟩)
              · exact absurd h (by simp)
              · cases hq; exact absurd hq32 hp
    · intro p hp h32
      subst hp
      simp [splayLoad, Nat.not_lt.mpr h32]
  · intro dbRoot tableName res
    constructor
    · cases res with
      | none =>
          simp only [partLoad]
          constructor
          · intro _; simp
          · intro _
            exact ⟨_, rfl, "Failed to load partitioned table: ", "", by simp⟩
      | some p =>
          by_cases hp : p < 32
          · simp only [partLoad, if_pos hp]
            constructor
            · intro _; exact Or.inr ⟨p, rfl, hp⟩
            · intro _
              exact ⟨_, rfl, "Failed to load partitioned table: ", "", by simp⟩
          · simp only [partLoad, if_neg hp]
            constructor
            · rintro ⟨msg, hmsg, -⟩; exact absurd hmsg (by simp)
            · rintro (h | ⟨q, hq, hq32⟩)
              · exact absurd h (by simp)
              · cases hq; exact absurd hq32 hp
    · intro p hp h32
      subst hp
      simp [partLoad, Nat.not_lt.mpr h32]
  · intro err
    by_cases he : err = 0
    · subst he; simp [splaySave]
    · simp [splaySave, he]

/-- Witness for C7: concrete success and failure of each entry point. -/
theorem storage_error_reporting_witness :
    readCsv "data.csv" (some 100) = .ok 100
    ∧ splayLoad "db/t" (some 64) = .ok 64
    ∧ partLoad "db" "trades" (some 64) = .ok 64
    ∧ splaySave 0 = .ok ()
    ∧ (∃ msg, readCsv "missing.csv" none = .error (.runtimeError msg)
        ∧ ∃ pre post, msg = pre ++ "missing.csv" ++ post) :=
  ⟨(storage_error_reporting.1 "data.csv" (some 100)).2 100 rfl (by decide),
   (storage_error_reporting.2.1 "db/t" (some 64)).2 64 rfl (by decide),
   (storage_error_reporting.2.2.1 "db" "trades" (some 64)).2 64 rfl
     (by decide),
   (storage_error_reporting.2.2.2 0).mpr rfl,
   ((storage_error_reporting.1 "missing.csv" none).1).mpr (Or.inl rfl)⟩

/-- C9: `Table.join(right, on, how)` resolves the join kind with
`{"inner": 0, "left": 1}.get(how, 0)`: any string outside those two silently
becomes join type 0 (inner) and the join proceeds exactly as an inner join;
no validation of the kind ever raises. -/
theorem join_how_silently_inner (how : String)
    (h1 : how ≠ "inner") (h2 : how ≠ "left") :
    joinTypeOf how = 0
    ∧ joinTypeOf how = joinTypeOf "inner"
    ∧ joinTypeOf "left" = 1
    ∧ ∀ lookups execRes,
        joinRun how lookups execRes = joinRun "inner" lookups execRes := by
  refine ⟨by simp [joinTypeOf, h1, h2], by simp [joinTypeOf, h1, h2], rfl,
    fun lookups execRes => rfl⟩

/-- Witness for C9 at the invalid join kind "outer". -/
theorem join_how_silently_inner_witness :
    joinTypeOf "outer" = 0
    ∧ joinTypeOf "outer" = joinTypeOf "inner"
    ∧ joinTypeOf "left" = 1
    ∧ joinRun "outer" [some 40] (some 100) =
        joinRun "inner" [some 40] (some 100) :=
  have h := join_how_silently_inner "outer" (by decide) (by decide)
  ⟨h.1, h.2.1, h.2.2.1, h.2.2.2 [some 40] (some 100)⟩

/-- The method names `TeideLib` defines (the `def`s of the class body,
`__init__.py` lines 297-444).  Attribute access on any other name raises
`AttributeError`. -/
def teideLibMethods : List String :=
  ["sym_init", "sym_destroy", "arena_init", "arena_destroy_all",
   "pool_destroy", "retain", "release", "csv_read", "graph_new",
   "graph_free", "scan", "const_f64", "const_i64", "const_vec",
   "const_table", "add", "sub", "mul", "div", "eq", "ne", "lt", "le",
   "gt", "ge", "and_op", "or_op", "sum", "avg", "min_op", "max_op",
   "count", "first", "last", "filter", "sort_op", "group", "join",
   "head", "optimize", "execute", "table_ncols", "table_nrows",
   "table_get_col_idx", "table_col_name", "sym_str", "str_ptr",
   "str_len", "sym_intern", "vec_from_raw_i64", "vec_from_raw_f64",
   "table_new", "table_add_col", "splay_save", "splay_load", "part_load"]

/-- Python attribute lookup on a `TeideLib` instance: defined methods
resolve, anything else raises `AttributeError` with the standard message. -/
def getattrTeideLib (name : String) : Except PyErr Unit :=
  if name ∈ teideLibMethods then .ok ()
  else .error (.attributeError
    ("\x27TeideLib\x27 object has no attribute \x27" ++ name ++ "\x27"))

/-- Python `str.lower()` on the (ASCII) task strings: lower-case each
character. -/
def pyLower (s : String) : String := ⟨s.data.map Char.toLower⟩

/-- Helper for `pySplitUnd`: accumulate the current segment (reversed) while
walking the characters. -/
def splitUndAux : List Char → List Char → List (List Char)
  | [], acc => [acc.reverse]
  | c :: cs, acc =>
      if c = '_' then acc.reverse :: splitUndAux cs []
      else splitUndAux cs (c :: acc)

/-- Python `str.split("_")`: split into the underscore-separated segments
(always at least one segment). -/
def pySplitUnd (s : String) : List String :=
  (splitUndAux s.data []).map fun l => ⟨l⟩

/-- Model of the `TeideAdapter._dispatch` task parsing (teide_adapter.py lines 105-108):
lower-case, split on underscores, suite is the first part, query the second
(defaulting to "q1"). -/
def parseTask (task : String) : String × String :=
  let parts := pySplitUnd (pyLower task)
  (parts.headD "", (parts[1]?).getD "q1")

/-- Model of `TeideAdapter._join` (teide_adapter.py lines 287-321): check the tables
are loaded, pick the join type from the query, create a graph, then build
the left table node via `lib.const_df(...)` — an attribute `TeideLib` does
not define, so the attribute access raises before any further work; the
`finally` block still frees the graph. -/
def adapterJoin (query : String) (tablesLoaded : Bool) : Except PyErr Nat :=
  if tablesLoaded = false then .error (.valueError "Join tables not loaded")
  else
    let _joinType : Nat := if query = "q1" then 1 else 0
    do
      getattrTeideLib "const_df"
      .error (.runtimeError "unreachable: const_df lookup always raises")

/-- Model of `TeideAdapter._dispatch` (teide_adapter.py lines 103-119): route the
parsed suite.  The groupby, sort and window handlers are passed in as
`other` — C10 only concerns the join route, whose handler is `adapterJoin`;
an unknown suite raises `ValueError`. -/
def dispatch (other : String → String → Except PyErr Nat)
    (suite query : String) (tablesLoaded : Bool) : Except PyErr Nat :=
  if suite = "groupby" then other suite query
  else if suite = "join" then adapterJoin query tablesLoaded
  else if suite = "sort" then other suite query
  else if suite = "window" then other suite query
  else .error (.valueError ("Unknown benchmark suite: " ++ suite))

/-- Result object built by `TeideAdapter.run` (teide_adapter.py
lines 38-46 and 77-95). -/
structure AdapterResult where
  success : Bool
  rowCount : Nat
  error : Option PyErr
  deriving DecidableEq, Repr

/-- Model of `TeideAdapter.run` (teide_adapter.py lines 77-95): dispatch inside a
catch-all `try`; any exception becomes a failed `AdapterResult`, so `run`
itself never raises. -/
def adapterRun (dispatchResult : Except PyErr Nat) : AdapterResult :=
  match dispatchResult with
  | .ok rows => ⟨true, rows, none⟩
  | .error e => ⟨false, 0, some e⟩

/-- C10: for every benchmark task routed to the join suite (first
underscore-separated part of the lowered task string is "join"), with the
left and right tables loaded, `TeideAdapter.run` returns normally — the
model is a total function — and the result has `success = False`, because
`_join`'s very first graph-building step accesses `lib.const_df`, an
attribute `TeideLib` does not define, and `run`'s catch-all converts the
`AttributeError` into a failed result, whatever the other suite handlers
would do. -/
theorem join_tasks_always_fail (task : String) (rest : List String)
    (hparse : pySplitUnd (pyLower task) = "join" :: rest)
    (other : String → String → Except PyErr Nat) :
    adapterRun (dispatch other (parseTask task).1 (parseTask task).2 true) =
      ⟨false, 0, some (.attributeError
        "\x27TeideLib\x27 object has no attribute \x27const_df\x27")⟩ := by
  have hsuite : (parseTask task).1 = "join" := by
    simp [parseTask, hparse]
  have hattr : getattrTeideLib "const_df" = .error (.attributeError
      "\x27TeideLib\x27 object has no attribute \x27const_df\x27") := by
    rfl
  rw [hsuite]
  simp only [dispatch, adapterJoin, if_neg (by decide : ¬("join" = "groupby")),
    if_pos rfl]
  simp [adapterRun, hattr, Bind.bind, Except.bind]

/-- Witness for C10 at the concrete benchmark task "join_q1". -/
theorem join_tasks_always_fail_witness :
    adapterRun (dispatch (fun _ _ => .ok 0) (parseTask "join_q1").1
        (parseTask "join_q1").2 true) =
      ⟨false, 0, some (.attributeError
        "\x27TeideLib\x27 object has no attribute \x27const_df\x27")⟩ :=
  join_tasks_always_fail "join_q1" ["q1"] (by decide) (fun _ _ => .ok 0)

/-- In-memory column of one supported primitive type (spec section 3):
bool, 32/64-bit integer, 64-bit float (modelled by its bit pattern, which is
what storage preserves), or categorical/symbol. -/
inductive Col where
  | bools (xs : List Bool)
  | i32s (xs : List Int)
  | i64s (xs : List Int)
  | f64s (bits : List Int)
  | syms (xs : List String)
  deriving DecidableEq, Repr

/-- In-memory table for the storage model: ordered (name, column) pairs. -/
structure STable where
  cols : List (String × Col)
  deriving DecidableEq, Repr

/-- On-disk column file: byte layout identical to the vector (type tag plus
elements); categorical columns store interned symbol ids. -/
inductive ColFile where
  | bools (xs : List Bool)
  | i32s (xs : List Int)
  | i64s (xs : List Int)
  | f64s (bits : List Int)
  | enums (ids : List Nat)
  deriving DecidableEq, Repr

/-- Modelled from the spec (sections 4.6, 6; `td_splay_save`/`td_splay_load`
are in libteide, not in this repository): a splayed table is one file per
column in a deterministic stored order, plus the shared symbol file
persisting the interned-string table. -/
structure SplayDir where
  files : List (String × ColFile)
  symFile : List String
  deriving DecidableEq, Repr

/-- Modelled from the spec: symbol interning — the same string always maps
to the same small integer id; a new string is appended and receives the next
id. -/
def intern (st : List String) (s : String) : List String × Nat :=
  if s ∈ st then (st, st.indexOf s) else (st ++ [s], st.length)

/-- Intern every element of a categorical column, threading the symbol
table. -/
def internList (st : List String) : List String → List String × List Nat
  | [] => (st, [])
  | x :: xs =>
      let r1 := intern st x
      let r2 := internList r1.1 xs
      (r2.1, r1.2 :: r2.2)

/-- Encode one column for storage, threading the symbol table (only
categorical columns touch it). -/
def encodeCol (st : List String) : Col → List String × ColFile
  | .bools xs => (st, .bools xs)
  | .i32s xs => (st, .i32s xs)
  | .i64s xs => (st, .i64s xs)
  | .f64s bits => (st, .f64s bits)
  | .syms xs =>
      let r := internList st xs
      (r.1, .enums r.2)

/-- Encode all columns in order, threading the symbol table. -/
def saveCols (st : List String) :
    List (String × Col) → List String × List (String × ColFile)
  | [] => (st, [])
  | (name, c) :: rest =>
      let r1 := encodeCol st c
      let r2 := saveCols r1.1 rest
      (r2.1, (name, r1.2) :: r2.2)

/-- Modelled from the spec: `splay_save(table, dir)` writes one file per
column plus the shared symbol file (the interning table as of the end of the
save, which may have started non-empty at `st0`). -/
def splay_save_model (st0 : List String) (t : STable) : SplayDir :=
  let r := saveCols st0 t.cols
  ⟨r.2, r.1⟩

/-- Resolve a list of symbol ids against the symbol file; any dangling id
fails the load. -/
def lookupIds (syms : List String) : List Nat → Option (List String)
  | [] => some []
  | i :: is =>
      match syms[i]? with
      | none => none
      | some sVal => (lookupIds syms is).map (sVal :: ·)

/-- Decode one stored column file against the shared symbol file. -/
def decodeCol (syms : List String) : ColFile → Option Col
  | .bools xs => some (.bools xs)
  | .i32s xs => some (.i32s xs)
  | .i64s xs => some (.i64s xs)
  | .f64s bits => some (.f64s bits)
  | .enums ids => (lookupIds syms ids).map .syms

/-- Decode all column files in stored order. -/
def loadCols (syms : List String) :
    List (String × ColFile) → Option (List (String × Col))
  | [] => some []
  | (name, f) :: rest =>
      match decodeCol syms f with
      | none => none
      | some c => (loadCols syms rest).map ((name, c) :: ·)

/-- Modelled from the spec: `splay_load(dir)` mmaps each column file and
decodes categorical columns through the shared symbol file. -/
def splay_load_model (d : SplayDir) : Option STable :=
  (loadCols d.symFile d.files).map STable.mk

/-- A lookup below the length of a prefix reads from the prefix. -/
theorem getElem?_of_extension {l lF : List String} (h : l <+: lF) {i : Nat}
    (hi : i < l.length) : lF[i]? = l[i]? := by
  obtain ⟨t, rfl⟩ := h
  exact List.getElem?_append_left hi

/-- Interning only appends to the symbol table. -/
theorem intern_extends (st : List String) (s : String) :
    st <+: (intern st s).1 := by
  unfold intern
  by_cases h : s ∈ st
  · simp [h]
  · simp [h, List.prefix_append]

/-- An interned id resolves to its string in any later symbol table. -/
theorem intern_lookup {st : List String} {s : String} {stF : List String}
    (h : (intern st s).1 <+: stF) : stF[(intern st s).2]? = some s := by
  by_cases hm : s ∈ st
  · have hlt : st.indexOf s < st.length := List.indexOf_lt_length.mpr hm
    have h1 : (intern st s).1 = st := by simp [intern, hm]
    have h2 : (intern st s).2 = st.indexOf s := by simp [intern, hm]
    rw [h1] at h
    rw [h2, getElem?_of_extension h hlt, List.getElem?_eq_getElem hlt]
    simp [List.getElem_indexOf hlt]
  · have h1 : (intern st s).1 = st ++ [s] := by simp [intern, hm]
    have h2 : (intern st s).2 = st.length := by simp [intern, hm]
    rw [h1] at h
    have hlt : st.length < (st ++ [s]).length := by simp
    rw [h2, getElem?_of_extension h hlt]
    simp

/-- Interning a list only appends to the symbol table. -/
theorem internList_extends (xs : List String) (st : List String) :
    st <+: (internList st xs).1 := by
  induction xs generalizing st with
  | nil => exact List.prefix_refl st
  | cons x xs ih =>
      exact (intern_extends st x).trans (ih (intern st x).1)

/-- Ids produced by interning a list all resolve back to the original
strings in any symbol table extending the post-interning one. -/
theorem internList_lookup (xs : List String) (st : List String)
    {stF : List String} (h : (internList st xs).1 <+: stF) :
    lookupIds stF (internList st xs).2 = some xs := by
  induction xs generalizing st with
  | nil => rfl
  | cons x xs ih =>
      have hpre : (internList (intern st x).1 xs).1 <+: stF := h
      have hx : stF[(intern st x).2]? = some x :=
        intern_lookup ((internList_extends xs (intern st x).1).trans hpre)
      simp only [internList, lookupIds, hx, ih (intern st x).1 hpre]
      rfl

/-- Encoding a column only appends to the symbol table. -/
theorem encodeCol_extends (st : List String) (c : Col) :
    st <+: (encodeCol st c).1 := by
  cases c with
  | syms xs => exact internList_extends xs st
  | bools xs => exact List.prefix_refl st
  | i32s xs => exact List.prefix_refl st
  | i64s xs => exact List.prefix_refl st
  | f64s bits => exact List.prefix_refl st

/-- Decoding an encoded column against any extension of the post-encoding
symbol table restores the column. -/
theorem encodeCol_decode (st : List String) (c : Col) {stF : List String}
    (h : (encodeCol st c).1 <+: stF) :
    decodeCol stF (encodeCol st c).2 = some c := by
  cases c with
  | syms xs => simp [encodeCol, decodeCol, internList_lookup xs st h]
  | bools xs => rfl
  | i32s xs => rfl
  | i64s xs => rfl
  | f64s bits => rfl

/-- Saving the column list only appends to the symbol table. -/
theorem saveCols_extends (cols : List (String × Col)) (st : List String) :
    st <+: (saveCols st cols).1 := by
  induction cols generalizing st with
  | nil => exact List.prefix_refl st
  | cons c rest ih =>
      exact (encodeCol_extends st c.2).trans (ih (encodeCol st c.2).1)

/-- Loading the saved column list against any extension of the final symbol
table restores every column with its name, in order. -/
theorem saveCols_load (cols : List (String × Col)) (st : List String)
    {stF : List String} (h : (saveCols st cols).1 <+: stF) :
    loadCols stF (saveCols st cols).2 = some cols := by
  induction cols generalizing st with
  | nil => rfl
  | cons c rest ih =>
      have hpre : (saveCols (encodeCol st c.2).1 rest).1 <+: stF := h
      have hc : decodeCol stF (encodeCol st c.2).2 = some c.2 :=
        encodeCol_decode st c.2
          ((saveCols_extends rest (encodeCol st c.2).1).trans hpre)
      simp only [saveCols, loadCols, hc, ih (encodeCol st c.2).1 hpre]
      simp

/-- C8 (spec-modelled): `splay_load(splay_save(T, dir))` restores `T`
exactly — same column count, same column names in the same order, and the
same per-element values for every supported primitive type including
categorical/symbol columns — from any initial state `st0` of the global
symbol table. -/
theorem splay_roundtrip (st0 : List String) (t : STable) :
    splay_load_model (splay_save_model st0 t) = some t
    ∧ (splay_save_model st0 t).files.map Prod.fst = t.cols.map Prod.fst := by
  constructor
  · have h := saveCols_load t.cols st0 (List.prefix_refl _)
    simp [splay_save_model, splay_load_model, h]
  · have : ∀ (st : List String) (cols : List (String × Col)),
        (saveCols st cols).2.map Prod.fst = cols.map Prod.fst := by
      intro st cols
      induction cols generalizing st with
      | nil => rfl
      | cons c rest ih => simp [saveCols, ih]
    exact this st0 t.cols

end Teide

namespace Mirador

/-!
Embedding of `PipelineExecutor.run` (`src/mirador/mirador/engine/executor.py`
lines 19-103) in its default invocation (`session_id = None`,
`start_from = None`, so no resume; the `on_node_*` callbacks are
notifications and do not affect control flow).  Node-class resolution
(`registry.get` plus instantiation) is assumed to succeed; `node.execute` is
abstracted as a function from the node id to `Except` (the `inputs` merge
does not affect the claimed ordering/err properties).
-/

/-- A pipeline definition: node ids in insertion order (the keys of the
Python `nodes` dict) and (source, target) edges. -/
structure Pipeline where
  nodes : List String
  edges : List (String × String)

/-- Model of `downstream[u]`: targets of the edges with source `u`, in edge order. -/
def downstream (edges : List (String × String)) (u : String) : List String :=
  (edges.filter fun e => decide (e.1 = u)).map Prod.snd

/-- Model of `in_degree[v]` as first computed: the number of edges with target `v`. -/
def inDegree (edges : List (String × String)) (v : String) : Nat :=
  edges.countP fun e => decide (e.2 = v)

/-- The number of edges into `v` whose source has already been emitted into
`ord` — the total decrement applied to `in_degree[v]` so far. -/
def predCount (edges : List (String × String)) (ord : List String)
    (v : String) : Nat :=
  edges.countP fun e => decide (e.2 = v ∧ e.1 ∈ ord)

/-- The inner `for target in downstream[n_id]` loop of Kahn's algorithm:
decrement each target's degree, enqueueing it when its degree reaches 0. -/
def processTargets (deg : String → Int) (queue : List String) :
    List String → (String → Int) × List String
  | [] => (deg, queue)
  | t :: ts =>
      let d := deg t - 1
      processTargets (fun v => if v = t then d else deg v)
        (if d = 0 then queue ++ [t] else queue) ts

/-- The `while queue:` loop of Kahn's algorithm (executor.py lines 46-52):
pop the front, append it to the order, process its downstream targets.  The
fuel argument only bounds the recursion; under the invariants below at most
`nodes.length` pops can ever happen, so `nodes.length + 1` fuel is never
exhausted. -/
def kahnLoop (edges : List (String × String)) :
    Nat → (String → Int) → List String → List String → List String
  | 0, _, _, order => order
  | fuel + 1, deg, queue, order =>
      match queue with
      | [] => order
      | u :: rest =>
          let r := processTargets deg rest (downstream edges u)
          kahnLoop edges fuel r.1 r.2 (order ++ [u])

/-- The topological sort of `PipelineExecutor.run` (executor.py
lines 39-52). -/
def kahn (p : Pipeline) : List String :=
  kahnLoop p.edges (p.nodes.length + 1)
    (fun v => (inDegree p.edges v : Int))
    (p.nodes.filter fun v => decide (inDegree p.edges v = 0)) []

/-- Recorded result for one node: its output dict (abstracted) or the
`{"error": str(exc)}` record. -/
inductive NodeOutcome where
  | ok (out : Nat)
  | errorResult (msg : String)
  deriving DecidableEq, Repr

/-- The execution loop of `run` (executor.py lines 71-94): execute nodes in
topological order, recording outputs; on the first exception record the
error string and break. -/
def execLoop (execNode : String → Except String Nat) :
    List String → List (String × NodeOutcome)
  | [] => []
  | n :: rest =>
      match execNode n with
      | .ok out => (n, .ok out) :: execLoop execNode rest
      | .error msg => [(n, .errorResult msg)]

/-- Model of `PipelineExecutor.run` in the default invocation: topologically sort; if
the order is incomplete raise `ValueError("Pipeline has a cycle")` before
executing anything; otherwise run the execution loop and return the results
in insertion order. -/
def run (p : Pipeline) (execNode : String → Except String Nat) :
    Except String (List (String × NodeOutcome)) :=
  let order := kahn p
  if order.length ≠ p.nodes.length then .error "Pipeline has a cycle"
  else .ok (execLoop execNode order)

/-- Well-formed pipeline: distinct node ids, edge endpoints are nodes. -/
def WFPipeline (p : Pipeline) : Prop :=
  p.nodes.Nodup ∧ ∀ e ∈ p.edges, e.1 ∈ p.nodes ∧ e.2 ∈ p.nodes

/-- Every edge into an emitted node comes from a node emitted strictly
earlier. -/
def TopoSound (edges : List (String × String)) (order : List String) : Prop :=
  ∀ e ∈ edges, ∀ i : Nat, order[i]? = some e.2 →
    ∃ j, j < i ∧ order[j]? = some e.1

/-- The consecutive pairs of a cycle candidate, wrapping around. -/
def cyclePairs (c : List String) : List (String × String) :=
  c.zip (c.rotate 1)

/-- Predicate: `cyc` is a cycle in `p`: nonempty, within the nodes, and each consecutive
pair (wrapping) is an edge. -/
def IsCycle (p : Pipeline) (c : List String) : Prop :=
  c ≠ [] ∧ (∀ v ∈ c, v ∈ p.nodes) ∧ ∀ e ∈ cyclePairs c, e ∈ p.edges

instance (p : Pipeline) (c : List String) : Decidable (IsCycle p c) := by
  unfold IsCycle
  infer_instance

/-- Loop invariant for Kahn's algorithm. -/
structure KahnInv (edges : List (String × String)) (nodes : List String)
    (deg : String → Int) (queue order : List String) : Prop where
  orderNodup : order.Nodup
  queueNodup : queue.Nodup
  disj : ∀ v ∈ queue, v ∉ order
  orderSub : ∀ v ∈ order, v ∈ nodes
  queueSub : ∀ v ∈ queue, v ∈ nodes
  degEq : ∀ v, deg v =
    (inDegree edges v : Int) - (predCount edges order v : Int)
  queueZero : ∀ v ∈ queue, deg v = 0
  orderNonpos : ∀ v ∈ order, deg v ≤ 0
  topo : TopoSound edges order

/-- A node's decrement total never exceeds its in-degree. -/
theorem predCount_le_inDegree (edges : List (String × String))
    (ord : List String) (v : String) :
    predCount edges ord v ≤ inDegree edges v := by
  apply List.countP_mono_left
  intro e _ he
  simp only [decide_eq_true_eq] at he ⊢
  exact he.1

/-- Unfolding `predCount` over a counted edge. -/
theorem predCount_cons_pos {e : String × String} {v : String}
    {ord : List String} (es : List (String × String))
    (h : e.2 = v ∧ e.1 ∈ ord) :
    predCount (e :: es) ord v = predCount es ord v + 1 := by
  simp [predCount, List.countP_cons, h]

/-- Unfolding `predCount` over an uncounted edge. -/
theorem predCount_cons_neg {e : String × String} {v : String}
    {ord : List String} (es : List (String × String))
    (h : ¬(e.2 = v ∧ e.1 ∈ ord)) :
    predCount (e :: es) ord v = predCount es ord v := by
  simp [predCount, List.countP_cons, h]

/-- Unfolding `inDegree` over an incoming edge. -/
theorem inDegree_cons_pos {e : String × String} {v : String}
    (es : List (String × String)) (h : e.2 = v) :
    inDegree (e :: es) v = inDegree es v + 1 := by
  simp [inDegree, List.countP_cons, h]

/-- Unfolding `inDegree` over an unrelated edge. -/
theorem inDegree_cons_neg {e : String × String} {v : String}
    (es : List (String × String)) (h : ¬e.2 = v) :
    inDegree (e :: es) v = inDegree es v := by
  simp [inDegree, List.countP_cons, h]

/-- A fully decremented node has all its edge sources emitted. -/
theorem predCount_eq_inDegree_all {edges : List (String × String)}
    {ord : List String} {v : String}
    (h : predCount edges ord v = inDegree edges v) :
    ∀ e ∈ edges, e.2 = v → e.1 ∈ ord := by
  induction edges with
  | nil => intro e he; simp at he
  | cons e0 es ih =>
      intro e he hev
      have hle := predCount_le_inDegree es ord v
      by_cases h2 : e0.2 = v
      · by_cases h1 : e0.1 ∈ ord
        · rw [predCount_cons_pos es ⟨h2, h1⟩, inDegree_cons_pos es h2] at h
          rcases List.mem_cons.mp he with rfl | hes
          · exact h1
          · exact ih (by omega) e hes hev
        · rw [predCount_cons_neg es fun hc => h1 hc.2,
            inDegree_cons_pos es h2] at h
          omega
      · rw [predCount_cons_neg es fun hc => h2 hc.1,
          inDegree_cons_neg es h2] at h
        rcases List.mem_cons.mp he with rfl | hes
        · exact absurd hev h2
        · exact ih h e hes hev

/-- The degree function after `processTargets` reflects one decrement per
occurrence in the target list. -/
theorem processTargets_deg (ts : List String) :
    ∀ (deg : String → Int) (queue : List String) (v : String),
      (processTargets deg queue ts).1 v = deg v - (ts.count v : Int) := by
  induction ts with
  | nil => intro deg queue v; simp [processTargets]
  | cons t ts ih =>
      intro deg queue v
      simp only [processTargets]
      rw [ih]
      by_cases hv : v = t
      · subst hv
        simp only [if_pos rfl, List.count_cons, beq_iff_eq]
        simp
        omega
      · simp only [if_neg hv, List.count_cons, beq_iff_eq]
        rw [if_neg fun h => hv h.symm]
        simp

/-- The function `processTargets` only appends to the queue; every appended node occurs
in the target list, had a positive degree, and is decremented to (at most)
zero by the end of the pass. -/
theorem processTargets_queue (ts : List String) :
    ∀ (deg : String → Int) (queue : List String),
      ∃ extra, (processTargets deg queue ts).2 = queue ++ extra
        ∧ extra.Nodup
        ∧ ∀ t ∈ extra, t ∈ ts ∧ 1 ≤ deg t ∧ deg t ≤ (ts.count t : Int) := by
  induction ts with
  | nil =>
      intro deg queue
      exact ⟨[], by simp [processTargets], List.nodup_nil, by simp⟩
  | cons t ts ih =>
      intro deg queue
      simp only [processTargets]
      by_cases hd : deg t - 1 = 0
      · rw [if_pos hd]
        obtain ⟨extra, he, hnd, hprop⟩ := ih
          (fun v => if v = t then deg t - 1 else deg v) (queue ++ [t])
        refine ⟨t :: extra, by simpa using he, ?_, ?_⟩
        · refine List.nodup_cons.mpr ⟨fun hmem => ?_, hnd⟩
          have := (hprop t hmem).2.1
          rw [if_pos rfl] at this
          omega
        · intro x hx
          rcases List.mem_cons.mp hx with rfl | hx
          · refine ⟨List.mem_cons_self _ _, by omega, ?_⟩
            rw [List.count_cons_self]
            push_cast
            omega
          · obtain ⟨hts, hpos, hcnt⟩ := hprop x hx
            have hxt : x ≠ t := by
              intro hxt
              subst hxt
              rw [if_pos rfl] at hpos
              omega
            rw [if_neg hxt] at hpos hcnt
            refine ⟨List.mem_cons_of_mem _ hts, hpos, ?_⟩
            calc (deg x) ≤ (ts.count x : Int) := hcnt
              _ ≤ ((t :: ts).count x : Int) := by
                  exact_mod_cast List.count_le_count_cons x t ts
      · rw [if_neg hd]
        obtain ⟨extra, he, hnd, hprop⟩ := ih
          (fun v => if v = t then deg t - 1 else deg v) queue
        refine ⟨extra, he, hnd, ?_⟩
        intro x hx
        obtain ⟨hts, hpos, hcnt⟩ := hprop x hx
        by_cases hxt : x = t
        · subst hxt
          rw [if_pos rfl] at hpos hcnt
          refine ⟨List.mem_cons_self _ _, by omega, ?_⟩
          rw [List.count_cons_self]
          push_cast
          omega
        · rw [if_neg hxt] at hpos hcnt
          refine ⟨List.mem_cons_of_mem _ hts, hpos, ?_⟩
          calc (deg x) ≤ (ts.count x : Int) := hcnt
            _ ≤ ((t :: ts).count x : Int) := by
                exact_mod_cast List.count_le_count_cons x t ts

/-- Unfold `downstream` over one edge. -/
theorem downstream_cons (e : String × String) (es : List (String × String))
    (u : String) :
    downstream (e :: es) u =
      if e.1 = u then e.2 :: downstream es u else downstream es u := by
  by_cases h : e.1 = u <;> simp [downstream, List.filter_cons, h]

/-- Emitting one more node adds exactly its outgoing-edge multiplicities to
the decrement totals. -/
theorem predCount_append_single (edges : List (String × String))
    {ord : List String} {u : String} (hu : u ∉ ord) (v : String) :
    predCount edges (ord ++ [u]) v =
      predCount edges ord v + (downstream edges u).count v := by
  induction edges with
  | nil => simp [predCount, downstream]
  | cons e es ih =>
      rw [downstream_cons]
      by_cases h2 : e.2 = v
      · by_cases h1 : e.1 ∈ ord
        · have hne : ¬e.1 = u := fun h => hu (h ▸ h1)
          rw [predCount_cons_pos es ⟨h2, List.mem_append_left _ h1⟩,
            predCount_cons_pos es ⟨h2, h1⟩, if_neg hne, ih]
          omega
        · by_cases hq : e.1 = u
          · rw [predCount_cons_pos es ⟨h2, by simp [hq]⟩,
              predCount_cons_neg es fun hc => h1 hc.2, if_pos hq, h2,
              List.count_cons_self, ih]
            omega
          · rw [predCount_cons_neg es fun hc => by
                rcases List.mem_append.mp hc.2 with hl | hr
                · exact h1 hl
                · exact hq (by simpa using hr),
              predCount_cons_neg es fun hc => h1 hc.2, if_neg hq, ih]
      · have hcons : ∀ ws : List String, (e.2 :: ws).count v = ws.count v :=
          fun ws => List.count_cons_of_ne (fun h => h2 h.symm) ws
        by_cases hq : e.1 = u
        · rw [predCount_cons_neg es fun hc => h2 hc.1,
            predCount_cons_neg es fun hc => h2 hc.1, if_pos hq, hcons, ih]
        · rw [predCount_cons_neg es fun hc => h2 hc.1,
            predCount_cons_neg es fun hc => h2 hc.1, if_neg hq, ih]

/-- Every member of `downstream edges u` is the target of an edge with
source `u`. -/
theorem mem_downstream {edges : List (String × String)} {u t : String}
    (h : t ∈ downstream edges u) : ∃ e ∈ edges, e.1 = u ∧ e.2 = t := by
  simp only [downstream, List.mem_map, List.mem_filter,
    decide_eq_true_eq] at h
  obtain ⟨e, ⟨he, heu⟩, het⟩ := h
  exact ⟨e, he, heu, het⟩

/-- The first occurrence index is minimal among all occurrence indices. -/
theorem indexOf_le_of_getElem? {l : List String} {j : Nat} {b : String}
    (h : l[j]? = some b) : l.indexOf b ≤ j := by
  induction l generalizing j with
  | nil => simp at h
  | cons a l ih =>
      cases j with
      | zero =>
          simp only [List.getElem?_cons_zero, Option.some.injEq] at h
          subst h
          simp
      | succ j =>
          simp only [List.getElem?_cons_succ] at h
          by_cases hab : b = a
          · subst hab
            simp
          · rw [List.indexOf_cons_ne _ (fun hh => hab hh.symm)]
            exact Nat.succ_le_succ (ih h)

/-- One iteration of the Kahn loop preserves the invariant: pop `u`, emit it,
decrement its downstream targets, enqueue the ones that reach degree 0. -/
theorem kahnStep {edges : List (String × String)} {nodes : List String}
    (hwf : ∀ e ∈ edges, e.2 ∈ nodes)
    {deg : String → Int} {u : String} {rest order : List String}
    (inv : KahnInv edges nodes deg (u :: rest) order) :
    KahnInv edges nodes
      (processTargets deg rest (downstream edges u)).1
      (processTargets deg rest (downstream edges u)).2
      (order ++ [u]) := by
  obtain ⟨extra, hq, hxnd, hxprop⟩ :=
    processTargets_queue (downstream edges u) deg rest
  have hdeg : ∀ v, (processTargets deg rest (downstream edges u)).1 v =
      deg v - ((downstream edges u).count v : Int) :=
    fun v => processTargets_deg _ deg rest v
  have huq : u ∉ order := inv.disj u (List.mem_cons_self u rest)
  have hdegu : deg u = 0 := inv.queueZero u (List.mem_cons_self u rest)
  have hrestnd : rest.Nodup := (List.nodup_cons.mp inv.queueNodup).2
  have hunotrest : u ∉ rest := (List.nodup_cons.mp inv.queueNodup).1
  have hdegEq : ∀ v, (processTargets deg rest (downstream edges u)).1 v =
      (inDegree edges v : Int) - (predCount edges (order ++ [u]) v : Int) := by
    intro v
    rw [hdeg v, inv.degEq v, predCount_append_single edges huq v]
    push_cast
    ring
  have hupreds : ∀ e ∈ edges, e.2 = u → e.1 ∈ order := by
    apply predCount_eq_inDegree_all
    have h1 := inv.degEq u
    have h2 := predCount_le_inDegree edges order u
    rw [hdegu] at h1
    omega
  have hnonneg : ∀ v,
      0 ≤ (inDegree edges v : Int) - (predCount edges (order ++ [u]) v : Int) := by
    intro v
    have := predCount_le_inDegree edges (order ++ [u]) v
    omega
  refine ⟨?_, ?_, ?_, ?_, ?_, hdegEq, ?_, ?_, ?_⟩
  · refine List.nodup_append.mpr ⟨inv.orderNodup, List.nodup_singleton u, ?_⟩
    intro a ha hb
    rw [List.mem_singleton] at hb
    subst hb
    exact huq ha
  · rw [hq]
    refine List.nodup_append.mpr ⟨hrestnd, hxnd, ?_⟩
    intro a ha hb
    have h0 : deg a = 0 := inv.queueZero a (List.mem_cons_of_mem u ha)
    have h1 : 1 ≤ deg a := (hxprop a hb).2.1
    omega
  · intro v hv hvmem
    rw [hq] at hv
    rcases List.mem_append.mp hv with hvr | hvx
    · rcases List.mem_append.mp hvmem with hvo | hvu
      · exact inv.disj v (List.mem_cons_of_mem u hvr) hvo
      · rw [List.mem_singleton] at hvu
        subst hvu
        exact hunotrest hvr
    · have h1 : 1 ≤ deg v := (hxprop v hvx).2.1
      rcases List.mem_append.mp hvmem with hvo | hvu
      · have := inv.orderNonpos v hvo
        omega
      · rw [List.mem_singleton] at hvu
        subst hvu
        omega
  · intro v hv
    rcases List.mem_append.mp hv with hvo | hvu
    · exact inv.orderSub v hvo
    · rw [List.mem_singleton] at hvu
      subst hvu
      exact inv.queueSub _ (List.mem_cons_self _ _)
  · intro v hv
    rw [hq] at hv
    rcases List.mem_append.mp hv with hvr | hvx
    · exact inv.queueSub v (List.mem_cons_of_mem u hvr)
    · obtain ⟨e, he, -, het⟩ := mem_downstream (hxprop v hvx).1
      exact het ▸ hwf e he
  · intro v hv
    have hlow := hnonneg v
    rw [← hdegEq v] at hlow
    rw [hq] at hv
    rcases List.mem_append.mp hv with hvr | hvx
    · have h0 : deg v = 0 := inv.queueZero v (List.mem_cons_of_mem u hvr)
      have := hdeg v
      have hcnt : (0 : Int) ≤ ((downstream edges u).count v : Int) := by
        positivity
      omega
    · have hub := (hxprop v hvx).2.2
      have := hdeg v
      omega
  · intro v hv
    have := hdeg v
    have hcnt : (0 : Int) ≤ ((downstream edges u).count v : Int) := by
      positivity
    rcases List.mem_append.mp hv with hvo | hvu
    · have := inv.orderNonpos v hvo
      omega
    · rw [List.mem_singleton] at hvu
      subst hvu
      omega
  · intro e he i hi
    by_cases hlt : i < order.length
    · rw [List.getElem?_append_left hlt] at hi
      obtain ⟨j, hj, hjget⟩ := inv.topo e he i hi
      exact ⟨j, hj, by
        rw [List.getElem?_append_left (hj.trans hlt)]
        exact hjget⟩
    · obtain ⟨hlt2, -⟩ := List.getElem?_eq_some.mp hi
      rw [List.length_append, List.length_singleton] at hlt2
      have hieq : i = order.length := by omega
      subst hieq
      rw [List.getElem?_concat_length] at hi
      have hu2 : e.2 = u := by
        injection hi with hi2
        exact hi2.symm
      have he1 : e.1 ∈ order := hupreds e he hu2
      obtain ⟨j, hjget⟩ := List.mem_iff_getElem?.mp he1
      obtain ⟨hjlt, -⟩ := List.getElem?_eq_some.mp hjget
      exact ⟨j, hjlt, by
        rw [List.getElem?_append_left hjlt]
        exact hjget⟩

/-- The Kahn loop maintains the invariant to its final order, whatever the
fuel. -/
theorem kahnLoop_inv {edges : List (String × String)} {nodes : List String}
    (hwf : ∀ e ∈ edges, e.2 ∈ nodes) :
    ∀ (fuel : Nat) (deg : String → Int) (queue order : List String),
      KahnInv edges nodes deg queue order →
      ∃ degF queueF,
        KahnInv edges nodes degF queueF
          (kahnLoop edges fuel deg queue order) := by
  intro fuel
  induction fuel with
  | zero => exact fun deg queue order inv => ⟨deg, queue, inv⟩
  | succ fuel ih =>
      intro deg queue order inv
      cases queue with
      | nil => exact ⟨deg, [], inv⟩
      | cons u rest =>
          simp only [kahnLoop]
          exact ih _ _ _ (kahnStep hwf inv)

/-- The topological order computed by `run` consists of distinct nodes of
the pipeline and respects every edge. -/
theorem kahn_props (p : Pipeline) (hwf : WFPipeline p) :
    (kahn p).Nodup ∧ (∀ v ∈ kahn p, v ∈ p.nodes)
    ∧ TopoSound p.edges (kahn p) := by
  have hinit : KahnInv p.edges p.nodes
      (fun v => (inDegree p.edges v : Int))
      (p.nodes.filter fun v => decide (inDegree p.edges v = 0)) [] := by
    refine ⟨List.nodup_nil, hwf.1.filter _, ?_, ?_, ?_, ?_, ?_, ?_, ?_⟩
    · intro v _ hv
      simp at hv
    · intro v hv
      simp at hv
    · exact fun v hv => List.mem_of_mem_filter hv
    · intro v
      have : predCount p.edges [] v = 0 := by
        simp [predCount, List.countP_eq_zero]
      rw [this]
      simp
    · intro v hv
      have := (List.mem_filter.mp hv).2
      simp only [decide_eq_true_eq] at this
      rw [this]
      simp
    · intro v hv
      simp at hv
    · intro e _ i hi
      simp at hi
  obtain ⟨degF, queueF, invF⟩ :=
    kahnLoop_inv (fun e he => (hwf.2 e he).2) (p.nodes.length + 1) _ _ _ hinit
  exact ⟨invF.orderNodup, invF.orderSub, invF.topo⟩

/-- A pipeline containing a cycle yields an incomplete topological order. -/
theorem cycle_incomplete (p : Pipeline) (hwf : WFPipeline p)
    {cyc : List String} (hc : IsCycle p cyc) :
    (kahn p).length ≠ p.nodes.length := by
  intro hlen
  obtain ⟨hnd, hsub, htopo⟩ := kahn_props p hwf
  have hall : ∀ v ∈ p.nodes, v ∈ kahn p := by
    have hsp := List.subperm_of_subset hnd (fun v hv => hsub v hv)
    have hperm := hsp.perm_of_length_le (le_of_eq hlen.symm)
    exact fun v hv => hperm.mem_iff.mpr hv
  obtain ⟨hne, hcin, hedges⟩ := hc
  have hargmin : ∃ v0, v0 ∈ cyc.argmin fun v => (kahn p).indexOf v := by
    cases hx : cyc.argmin fun v => (kahn p).indexOf v with
    | none => exact absurd (List.argmin_eq_none.mp hx) hne
    | some v0 => exact ⟨v0, Option.mem_def.mpr rfl⟩
  obtain ⟨v0, hv0⟩ := hargmin
  have hv0c : v0 ∈ cyc := List.argmin_mem hv0
  obtain ⟨i0, hi0⟩ := List.mem_iff_getElem?.mp hv0c
  obtain ⟨hi0lt, -⟩ := List.getElem?_eq_some.mp hi0
  have hlenpos : 0 < cyc.length := List.length_pos.mpr hne
  -- the cyclic predecessor index of i0
  have hpred : ∃ j0, j0 < cyc.length ∧ (j0 + 1) % cyc.length = i0 := by
    rcases Nat.eq_zero_or_pos i0 with hz | hp
    · refine ⟨cyc.length - 1, by omega, ?_⟩
      rw [Nat.sub_add_cancel hlenpos, Nat.mod_self, hz]
    · refine ⟨i0 - 1, by omega, ?_⟩
      rw [Nat.sub_add_cancel hp, Nat.mod_eq_of_lt hi0lt]
  obtain ⟨j0, hj0lt, hj0succ⟩ := hpred
  obtain ⟨b, hb⟩ : ∃ b, (cyc[j0]?) = some b := by
    rw [List.getElem?_eq_getElem hj0lt]
    exact ⟨_, rfl⟩
  have hbc : b ∈ cyc := List.getElem?_mem hb
  have hrot : (cyc.rotate 1)[j0]? = some v0 := by
    rw [List.getElem?_rotate hj0lt, hj0succ]
    exact hi0
  have hpair : ((b, v0) : String × String) ∈ cyclePairs cyc :=
    List.getElem?_mem (List.getElem?_zip_eq_some.mpr ⟨hb, hrot⟩)
  have hedge : ((b, v0) : String × String) ∈ p.edges := hedges _ hpair
  have hv0k : v0 ∈ kahn p := hall v0 (hcin v0 hv0c)
  have hivlt : (kahn p).indexOf v0 < (kahn p).length :=
    List.indexOf_lt_length.mpr hv0k
  have hivget : (kahn p)[(kahn p).indexOf v0]? = some v0 := by
    rw [List.getElem?_eq_getElem hivlt]
    exact congrArg some (List.getElem_indexOf hivlt)
  obtain ⟨j, hj, hjget⟩ := htopo (b, v0) hedge _ hivget
  have hjidx : (kahn p).indexOf b ≤ j := indexOf_le_of_getElem? hjget
  have hmin : (kahn p).indexOf v0 ≤ (kahn p).indexOf b :=
    List.le_of_mem_argmin hbc hv0
  omega

/-- The executed node sequence is a prefix of the topological order. -/
theorem execLoop_initial (execNode : String → Except String Nat) :
    ∀ order : List String,
      (execLoop execNode order).map Prod.fst <+: order := by
  intro order
  induction order with
  | nil => simp [execLoop]
  | cons n rest ih =>
      cases hx : execNode n with
      | ok out =>
          obtain ⟨t, ht⟩ := ih
          exact ⟨t, by simp [execLoop, hx, ht]⟩
      | error msg => exact ⟨rest, by simp [execLoop, hx]⟩

/-- An error record can only be the last entry, and it carries the raising
node's exception string. -/
theorem execLoop_error_last (execNode : String → Except String Nat) :
    ∀ (order : List String) (i : Nat) (n : String) (msg : String),
      (execLoop execNode order)[i]? = some (n, .errorResult msg) →
      i = (execLoop execNode order).length - 1 ∧ execNode n = .error msg := by
  intro order
  induction order with
  | nil => intro i n msg h; simp [execLoop] at h
  | cons a rest ih =>
      intro i n msg h
      cases hx : execNode a with
      | ok out =>
          rw [execLoop, hx] at h ⊢
          cases i with
          | zero => simp at h
          | succ i =>
              rw [List.getElem?_cons_succ] at h
              obtain ⟨hi, hexec⟩ := ih i n msg h
              obtain ⟨hlt, -⟩ := List.getElem?_eq_some.mp h
              refine ⟨?_, hexec⟩
              simp only [List.length_cons]
              omega
      | error msg0 =>
          rw [execLoop, hx] at h ⊢
          cases i with
          | zero =>
              simp only [List.getElem?_cons_zero, Option.some.injEq,
                Prod.mk.injEq, NodeOutcome.errorResult.injEq] at h
              obtain ⟨hn, hm⟩ := h
              subst hn
              subst hm
              exact ⟨rfl, hx⟩
          | succ i => simp at h

/-- Every recorded success is the node's own output. -/
theorem execLoop_ok_mem (execNode : String → Except String Nat) :
    ∀ (order : List String) (n : String) (out : Nat),
      (n, NodeOutcome.ok out) ∈ execLoop execNode order →
      execNode n = .ok out := by
  intro order
  induction order with
  | nil => intro n out h; simp [execLoop] at h
  | cons a rest ih =>
      intro n out h
      cases hx : execNode a with
      | ok o =>
          rw [execLoop, hx] at h
          rcases List.mem_cons.mp h with heq | hmem
          · injection heq with hn ho
            subst hn
            injection ho with ho2
            subst ho2
            exact hx
          · exact ih n out hmem
      | error msg =>
          rw [execLoop, hx] at h
          simp at h

/-- C4: for every well-formed pipeline, when `PipelineExecutor.run` returns
results: each node was executed at most once; a node is only executed after
all its upstream source nodes, which appear strictly earlier in the result
order; an error record (the failing node's `{"error": str(exc)}`) can only
be the final entry, so no node after the first failure is executed, and it
carries the failing node's exception string; every success record is the
node's own output.  And for every pipeline containing a cycle, `run` raises
`ValueError("Pipeline has a cycle")` — independently of the node execution
functions, i.e. without executing any node. -/
theorem pipeline_run_correct (p : Pipeline)
    (execNode : String → Except String Nat) (hwf : WFPipeline p) :
    (∀ res, run p execNode = .ok res →
        (res.map Prod.fst).Nodup
        ∧ (∀ e ∈ p.edges, ∀ i : Nat, (res.map Prod.fst)[i]? = some e.2 →
            ∃ j, j < i ∧ (res.map Prod.fst)[j]? = some e.1)
        ∧ (∀ (i : Nat) (n msg : String),
            res[i]? = some (n, .errorResult msg) →
            i = res.length - 1 ∧ execNode n = .error msg)
        ∧ (∀ (n : String) (out : Nat),
            (n, NodeOutcome.ok out) ∈ res → execNode n = .ok out))
    ∧ (∀ cyc, IsCycle p cyc →
        run p execNode = .error "Pipeline has a cycle") := by
  obtain ⟨hnd, hsub, htopo⟩ := kahn_props p hwf
  constructor
  · intro res hres
    unfold run at hres
    by_cases hlen : (kahn p).length ≠ p.nodes.length
    · rw [if_pos hlen] at hres
      exact absurd hres (by simp)
    · rw [if_neg hlen] at hres
      have hres2 : res = execLoop execNode (kahn p) := by
        injection hres with h
        exact h.symm
      subst hres2
      obtain ⟨suf, hsuf⟩ := execLoop_initial execNode (kahn p)
      refine ⟨?_, ?_, execLoop_error_last execNode (kahn p),
        execLoop_ok_mem execNode (kahn p)⟩
      · exact hnd.sublist (execLoop_initial execNode (kahn p)).sublist
      · intro e he i hi
        obtain ⟨hilt, -⟩ := List.getElem?_eq_some.mp hi
        have hik : (kahn p)[i]? = some e.2 := by
          rw [← hsuf, List.getElem?_append_left hilt]
          exact hi
        obtain ⟨j, hj, hjk⟩ := htopo e he i hik
        refine ⟨j, hj, ?_⟩
        have hjlt : j < ((execLoop execNode (kahn p)).map Prod.fst).length :=
          hj.trans hilt
        rw [← hsuf, List.getElem?_append_left hjlt] at hjk
        exact hjk
  · intro cyc hc
    unfold run
    rw [if_pos (cycle_incomplete p hwf hc)]

/-- Witness for C4: the two-node chain pipeline a → b runs both nodes, with
distinct result keys; the two-node cyclic pipeline x ⇄ y raises the cycle
`ValueError`. -/
theorem pipeline_run_correct_witness :
    (List.map Prod.fst
        [("a", NodeOutcome.ok 0), ("b", NodeOutcome.ok 0)]).Nodup
    ∧ run ⟨["x", "y"], [("x", "y"), ("y", "x")]⟩ (fun _ => .ok 0) =
        .error "Pipeline has a cycle" :=
  ⟨((pipeline_run_correct ⟨["a", "b"], [("a", "b")]⟩ (fun _ => .ok 0)
        (by constructor
            · decide
            · decide)).1
      [("a", .ok 0), ("b", .ok 0)] rfl).1,
   (pipeline_run_correct ⟨["x", "y"], [("x", "y"), ("y", "x")]⟩
        (fun _ => .ok 0)
        (by constructor
            · decide
            · decide)).2
      ["x", "y"] (by decide)⟩

end Mirador
